import Mathlib

namespace Getter

/-! ## Regular expressions (the fragment of Go's `regexp` used by `forcedRegexp`) -/

/-- Syntax tree of a regular expression, after Go's `regexp/syntax` operators:
`^` (OpBeginText), `$` (OpEndText), `.` (OpAnyCharNotNL), a character class,
a literal, greedy `+`, a capture group and concatenation. -/
inductive Regexp where
  | beginText
  | endText
  | anyCharNotNL
  | charClass (ranges : List (Char × Char))
  | literal (runes : List Char)
  | plus (sub : Regexp)
  | capture (index : Nat) (sub : Regexp)
  | concat (a b : Regexp)

/-- One thread of the backtracking matcher: the offset reached, the text still
unread and the capture groups closed so far (most recent first). -/
structure Thread where
  pos : Nat
  rest : List Char
  caps : List (Nat × List Char)

/-- Consume `n` characters. -/
def Thread.advance (n : Nat) (t : Thread) : Thread :=
  { t with pos := t.pos + n, rest := t.rest.drop n }

/-- Match one character satisfying `p`. -/
def stepChar (p : Char → Bool) (t : Thread) : List Thread :=
  match t.rest with
  | c :: _ => if p c then [t.advance 1] else []
  | [] => []

/-- Greedy `x+`: after one match of the body, prefer another iteration over
stopping. An iteration that consumed nothing is not repeated. -/
def plusLoop (body : Thread → List Thread) : Nat → Thread → List Thread
  | 0, _ => []
  | fuel + 1, t =>
    (body t).flatMap fun t1 =>
      (if t1.rest.length < t.rest.length then plusLoop body fuel t1 else []) ++ [t1]

/-- Membership in a character class given as inclusive ranges. -/
def inClass (ranges : List (Char × Char)) (c : Char) : Bool :=
  ranges.any fun r => decide (r.1 ≤ c) && decide (c ≤ r.2)

/-- All ways the expression matches at the thread's position, in the
leftmost-first (Perl-like) preference order that Go's `regexp` implements. -/
def Regexp.run : Regexp → Thread → List Thread
  | .beginText, t => if t.pos = 0 then [t] else []
  | .endText, t => if t.rest.isEmpty then [t] else []
  | .anyCharNotNL, t => stepChar (fun c => c != '\n') t
  | .charClass ranges, t => stepChar (inClass ranges) t
  | .literal runes, t =>
    if runes.isPrefixOf t.rest then [t.advance runes.length] else []
  | .plus sub, t => plusLoop (Regexp.run sub) (t.rest.length + 1) t
  | .capture index sub, t =>
    (Regexp.run sub t).map fun t1 =>
      { t1 with caps := (index, t.rest.take (t1.pos - t.pos)) :: t1.caps }
  | .concat a b, t => (Regexp.run a t).flatMap (Regexp.run b)

/-- Number of capture groups (the largest group index). -/
def Regexp.numSubexp : Regexp → Nat
  | .plus sub => sub.numSubexp
  | .capture index sub => max index sub.numSubexp
  | .concat a b => max a.numSubexp b.numSubexp
  | _ => 0

/-- Leftmost match: try every start offset in turn, the preferred match first. -/
def Regexp.search (re : Regexp) : Nat → List Char → Option (Nat × Thread)
  | pos, [] => (re.run ⟨pos, [], []⟩).head?.map fun m => (pos, m)
  | pos, c :: cs =>
    match (re.run ⟨pos, c :: cs, []⟩).head? with
    | some m => some (pos, m)
    | none => Regexp.search re (pos + 1) cs

/-- Go's `(*Regexp).FindStringSubmatch`: `none` (nil) when there is no match,
otherwise the text of the leftmost match followed by the text of each capture
group (the empty string for a group that did not take part). -/
def Regexp.FindStringSubmatch (re : Regexp) (s : String) : Option (List String) :=
  match re.search 0 s.data with
  | none => none
  | some (start, m) =>
    some (String.mk ((s.data.drop start).take (m.pos - start)) ::
      (List.range re.numSubexp).map fun i =>
        String.mk ((m.caps.lookup (i + 1)).getD []))

/-- The regular expression `^([A-Za-z0-9]+)::(.+)$` that finds forced getters
(syntax `schema::url`). -/
def forcedRegexp : Regexp :=
  .concat .beginText
    (.concat (.capture 1 (.plus (.charClass [('A', 'Z'), ('a', 'z'), ('0', '9')])))
      (.concat (.literal [':', ':'])
        (.concat (.capture 2 (.plus .anyCharNotNL)) .endText)))

/-- Takes a source and returns the tuple of the forced getter and the raw URL
(without the force syntax). -/
def getForcedGetter (src : String) : String × String :=
  match forcedRegexp.FindStringSubmatch src with
  | some ms => (ms.getD 1 "", ms.getD 2 "")
  | none => ("", src)

/-! ## Descriptions used in the statements about `getForcedGetter` -/

/-- The characters of the class `[A-Za-z0-9]`. -/
def isTokenChar (c : Char) : Bool := inClass [('A', 'Z'), ('a', 'z'), ('0', '9')] c

/-- The characters matched by `.`. -/
def isNotNL (c : Char) : Bool := c != '\n'

/-- Direct description of a match of `forcedRegexp`: the longest run of token
characters, then `::`, then a non-empty remainder without a line feed. -/
def forcedSplit (xs : List Char) : Option (List Char × List Char) :=
  let tok := xs.takeWhile isTokenChar
  let after := xs.dropWhile isTokenChar
  let r := after.drop 2
  if tok ≠ [] ∧ [':', ':'].isPrefixOf after = true ∧ r ≠ [] ∧ r.dropWhile isNotNL = [] then
    some (tok, r)
  else none

/-- Decidable form of "the text starts with a non-empty run of ASCII letters and
digits, then `::`, then at least one more character". -/
def hasForcedPrefix (xs : List Char) : Bool :=
  !(xs.takeWhile Char.isAlphanum).isEmpty &&
    [':', ':'].isPrefixOf (xs.dropWhile Char.isAlphanum) &&
    !((xs.dropWhile Char.isAlphanum).drop 2).isEmpty

/-! ## Errors and the operating-system interface -/

/-- A Go `error` value as the getters produce it: built by `fmt.Errorf`, or an
error of a callee (of type `ε`) handed on unchanged. -/
inductive Error (ε : Type) where
  | errorf (msg : String)
  | sys (err : ε)
  deriving DecidableEq

/-- Go's `os.FileMode`: the permission and file-type bits. -/
abbrev FileMode := Nat

/-- The constant `os.ModeDir` (`1 << 31`). -/
def ModeDir : FileMode := 2 ^ 31

/-- The constant `os.ModeSymlink` (`1 << 27`). -/
def ModeSymlink : FileMode := 2 ^ 27

/-- The part of `os.FileInfo` the getters look at. -/
structure FileInfo where
  Mode : FileMode
  deriving DecidableEq

/-- The method `fi.IsDir()`, that is `fi.Mode()&os.ModeDir != 0`. -/
def FileInfo.IsDir (fi : FileInfo) : Bool := fi.Mode &&& ModeDir != 0

/-- The fields of `url.URL` the file getter reads. -/
structure URL where
  Path : String
  RawPath : String

/-- The fields of `Client` the file getter reads. -/
structure Client where
  DisableSymlinks : Bool
  Umask : FileMode

/-- The file getter: the embedded base `getter` (its `client`, `none` for a nil
pointer) and the `Copy` flag. -/
structure FileGetter where
  client : Option Client
  Copy : Bool

/-- A call that can change the file system. -/
inductive Call where
  | Remove (name : String)
  | MkdirAll (path : String) (perm : FileMode)
  | Symlink (oldname newname : String)
  | copyFile (dst src : String) (disableSymlinks : Bool) (fmode umask : FileMode)
  deriving DecidableEq

/-- What the getters call, over file-system states `σ`, callee errors `ε` and
contexts `κ`. `Stat`, `Lstat` and `Readlink` only read the state; `Remove`,
`MkdirAll`, `Symlink` and `copyFile` return their error together with the state
they leave behind, which may differ from the old one also when they fail.
`Stat` … `Dir` stand for `os.Stat`, `os.Lstat`, `os.Readlink`, `os.Remove`,
`os.MkdirAll`, `os.Symlink`, `os.IsNotExist`, `err.Error()` and `filepath.Dir`;
`copyFile`, `mode` and `umask` are this package's `copyFile`, `(*Client).mode`
and `(*Client).umask`, whose bodies are not among the analysed sources. -/
structure Env (σ ε κ : Type) where
  Stat : String → σ → Except ε FileInfo
  Lstat : String → σ → Except ε FileInfo
  Readlink : String → σ → Except ε String
  Remove : String → σ → Option ε × σ
  MkdirAll : String → FileMode → σ → Option ε × σ
  Symlink : String → String → σ → Option ε × σ
  IsNotExist : ε → Bool
  Error : ε → String
  Dir : String → String
  copyFile : κ → String → String → Bool → FileMode → FileMode → σ → (Int × Option ε) × σ
  mode : Option Client → FileMode → FileMode
  umask : Option Client → FileMode

/-- Outcome of a getter call: the returned error (`none` for nil), the file
system afterwards and the state-changing calls made, in order. -/
structure Result (σ ε : Type) where
  err : Option (Error ε)
  state : σ
  calls : List Call

/-- The source path of both getters: `u.RawPath` when it is not empty,
otherwise `u.Path` (`get_file_unix.go` lines 18–21 and 57–60). -/
def sourcePath (u : URL) : String :=
  if u.RawPath != "" then u.RawPath else u.Path

/-- Lines 48–53 of `FileGetter.Get`: create all the parent directories, then
symlink. `calls` are the calls made before. -/
def FileGetter.Get.link {σ ε κ : Type} (env : Env σ ε κ) (g : FileGetter) (dst path : String)
    (calls : List Call) (s : σ) : Result σ ε :=
  match env.MkdirAll (env.Dir dst) (env.mode g.client 0o755) s with
  | (some err, s1) =>
    ⟨some (.sys err), s1, calls ++ [.MkdirAll (env.Dir dst) (env.mode g.client 0o755)]⟩
  | (none, s1) =>
    match env.Symlink path dst s1 with
    | (err, s2) =>
      ⟨err.map .sys, s2,
        calls ++ [.MkdirAll (env.Dir dst) (env.mode g.client 0o755), .Symlink path dst]⟩

/-- The method `(*FileGetter).Get` of `get_file_unix.go`. -/
def FileGetter.Get {σ ε κ : Type} (env : Env σ ε κ) (g : FileGetter) (_ctx : κ) (dst : String)
    (u : URL) (s : σ) : Result σ ε :=
  let path := sourcePath u
  -- The source path must exist and be a directory to be usable.
  match env.Stat path s with
  | .error err => ⟨some (.errorf ("source path error: " ++ env.Error err)), s, []⟩
  | .ok fi =>
    if !fi.IsDir then ⟨some (.errorf "source path must be a directory"), s, []⟩
    else
      match env.Lstat dst s with
      | .error err =>
        if !env.IsNotExist err then ⟨some (.sys err), s, []⟩
        else FileGetter.Get.link env g dst path [] s
      | .ok fi =>
        -- If the destination already exists, it must be a symlink
        if fi.Mode &&& ModeSymlink == 0 then
          ⟨some (.errorf "destination exists and is not a symlink"), s, []⟩
        else
          -- Remove the destination
          match env.Remove dst s with
          | (some err, s1) => ⟨some (.sys err), s1, [.Remove dst]⟩
          | (none, s1) => FileGetter.Get.link env g dst path [.Remove dst] s1

/-- Lines 84–102 of `FileGetter.GetFile`: create all the parent directories,
then symlink or copy. `fi` is the source's file info, `calls` are the calls
made before. -/
def FileGetter.GetFile.transfer {σ ε κ : Type} (env : Env σ ε κ) (g : FileGetter) (ctx : κ)
    (dst path : String) (fi : FileInfo) (calls : List Call) (s : σ) : Result σ ε :=
  match env.MkdirAll (env.Dir dst) (env.mode g.client 0o755) s with
  | (some err, s1) =>
    ⟨some (.sys err), s1, calls ++ [.MkdirAll (env.Dir dst) (env.mode g.client 0o755)]⟩
  | (none, s1) =>
    -- If we're not copying, just symlink and we're done
    if !g.Copy then
      match env.Symlink path dst s1 with
      | (err, s2) =>
        ⟨err.map .sys, s2,
          calls ++ [.MkdirAll (env.Dir dst) (env.mode g.client 0o755), .Symlink path dst]⟩
    else
      let disableSymlinks : Bool :=
        match g.client with
        | some c => c.DisableSymlinks
        | none => false
      -- Copy
      match env.copyFile ctx dst path disableSymlinks fi.Mode (env.umask g.client) s1 with
      | ((_, err), s2) =>
        ⟨err.map .sys, s2,
          calls ++ [.MkdirAll (env.Dir dst) (env.mode g.client 0o755),
            .copyFile dst path disableSymlinks fi.Mode (env.umask g.client)]⟩

/-- The method `(*FileGetter).GetFile` of `get_file_unix.go`. -/
def FileGetter.GetFile {σ ε κ : Type} (env : Env σ ε κ) (g : FileGetter) (ctx : κ)
    (dst : String) (u : URL) (s : σ) : Result σ ε :=
  let path := sourcePath u
  -- The source path must exist and be a file to be usable.
  match env.Stat path s with
  | .error err => ⟨some (.errorf ("source path error: " ++ env.Error err)), s, []⟩
  | .ok fi =>
    if fi.IsDir then ⟨some (.errorf "source path must be a file"), s, []⟩
    else
      match env.Lstat dst s with
      | .error err =>
        if !env.IsNotExist err then ⟨some (.sys err), s, []⟩
        else FileGetter.GetFile.transfer env g ctx dst path fi [] s
      | .ok _ =>
        -- Remove the destination
        match env.Remove dst s with
        | (some err, s1) => ⟨some (.sys err), s1, [.Remove dst]⟩
        | (none, s1) => FileGetter.GetFile.transfer env g ctx dst path fi [.Remove dst] s1

/-! ## Running a command -/

/-- The fields of `exec.Cmd` that `getRunCommand` reads. -/
structure Cmd where
  Path : String
  Args : List String

/-- A non-nil error of `cmd.Run()`: an `*exec.ExitError` (the program has exited
with an exit code != 0) with the text of its `ProcessState`, or any other
error, with its text. -/
inductive RunError where
  | ExitError (ProcessState : String)
  | other (text : String)
  deriving DecidableEq

/-- The helper `getRunCommand`: run a command and capture the output in the case
an error happens. `Run` stands for `cmd.Run()` with standard output and standard
error both directed to the one buffer: it yields what was written to the buffer
and the error of the run. -/
def getRunCommand (Run : Cmd → String × Option RunError) (cmd : Cmd) :
    Option (Error RunError) :=
  match Run cmd with
  | (_, none) => none
  | (buf, some (.ExitError ProcessState)) =>
    some (.errorf (cmd.Path ++ " exited with " ++ ProcessState ++ ": " ++ buf))
  | (buf, some (.other _)) => some (.errorf ("error running " ++ cmd.Path ++ ": " ++ buf))

/-! ## A small file system in memory -/

/-- A file, a directory or a symbolic link. -/
inductive Node where
  | file (mode : FileMode) (data : String)
  | dir (mode : FileMode)
  | symlink (target : String)
  deriving DecidableEq

/-- Paths and what is at them; the first entry for a path counts. -/
abbrev MemFS := List (String × Node)

/-- Error numbers of the file system in memory. -/
inductive Errno where
  | ENOENT
  | EEXIST
  | ENOTDIR
  | ENOTEMPTY
  | ELOOP
  | EINVAL
  deriving DecidableEq

/-- The text of an error number. -/
def Errno.text : Errno → String
  | .ENOENT => "no such file or directory"
  | .EEXIST => "file exists"
  | .ENOTDIR => "not a directory"
  | .ENOTEMPTY => "directory not empty"
  | .ELOOP => "too many levels of symbolic links"
  | .EINVAL => "invalid argument"

/-- File info of a node, without following a link. -/
def Node.info : Node → FileInfo
  | .file mode _ => ⟨mode⟩
  | .dir mode => ⟨ModeDir ||| mode⟩
  | .symlink _ => ⟨ModeSymlink ||| 0o777⟩

/-- File info of what a path leads to, following at most `fuel` links. -/
def MemFS.stat (fs : MemFS) : Nat → String → Except Errno FileInfo
  | 0, _ => .error .ELOOP
  | fuel + 1, name =>
    match fs.lookup name with
    | none => .error .ENOENT
    | some (.symlink target) => MemFS.stat fs fuel target
    | some node => .ok node.info

/-- The directory part of a slash-separated path. -/
def MemFS.dirOf (name : String) : String :=
  String.mk (((name.data.reverse.dropWhile fun c => c != '/').drop 1).reverse)

/-- The file system in memory as an instance of the interface. -/
def memEnv : Env MemFS Errno Unit where
  Stat name fs := fs.stat 8 name
  Lstat name fs :=
    match fs.lookup name with
    | none => .error .ENOENT
    | some node => .ok node.info
  Readlink name fs :=
    match fs.lookup name with
    | none => .error .ENOENT
    | some (.symlink target) => .ok target
    | some _ => .error .EINVAL
  Remove name fs :=
    match fs.lookup name with
    | none => (some .ENOENT, fs)
    | some (.dir _) =>
      if fs.any fun e => (name ++ "/").data.isPrefixOf e.1.data then (some .ENOTEMPTY, fs)
      else (none, fs.filter fun e => e.1 != name)
    | some _ => (none, fs.filter fun e => e.1 != name)
  MkdirAll path perm fs :=
    match fs.lookup path with
    | none => (none, (path, .dir perm) :: fs)
    | some (.dir _) => (none, fs)
    | some _ => (some .ENOTDIR, fs)
  Symlink oldname newname fs :=
    match fs.lookup newname with
    | none => (none, (newname, .symlink oldname) :: fs)
    | some _ => (some .EEXIST, fs)
  IsNotExist e := e == .ENOENT
  Error e := e.text
  Dir := MemFS.dirOf
  copyFile _ dst src _ fmode umask fs :=
    match fs.lookup src with
    | some (.file _ data) =>
      ((data.length, none), (dst, .file (fmode &&& (0o777 ^^^ umask)) data) :: fs)
    | _ => ((0, some .ENOENT), fs)
  mode c m :=
    match c with
    | some c => m &&& (0o777 ^^^ c.Umask)
    | none => m
  umask c :=
    match c with
    | some c => c.Umask
    | none => 0

/-- A directory `/tmp/srcdir`, a file in it, a stale link `/tmp/old`, a plain
directory `/tmp/keep` with a file in it, and a regular file `/tmp/b.txt`. -/
def fs0 : MemFS :=
  [("/tmp", .dir 0o755), ("/tmp/srcdir", .dir 0o755),
   ("/tmp/srcdir/a.txt", .file 0o644 "hello"), ("/tmp/old", .symlink "/tmp/elsewhere"),
   ("/tmp/keep", .dir 0o755), ("/tmp/keep/data", .file 0o600 "precious"),
   ("/tmp/b.txt", .file 0o644 "old")]

/-- A file getter without a client that links. -/
def linkGetter : FileGetter := ⟨none, false⟩

/-- A file getter that copies, bound to a client that forbids symlinks. -/
def copyGetter : FileGetter := ⟨some ⟨true, 0o022⟩, true⟩

/-- A file system with the directories `/tmp/a/b` and `/tmp/a%2Fb`, the files
`/tmp/a/b.txt` and `/tmp/a%2Fb.txt`, a stale link `/tmp/old` and a regular file
`/tmp/b.txt`. -/
def fs1 : MemFS :=
  [("/tmp", .dir 0o755), ("/tmp/a", .dir 0o755), ("/tmp/a/b", .dir 0o755),
   ("/tmp/a%2Fb", .dir 0o700), ("/tmp/a/b.txt", .file 0o644 "plain"),
   ("/tmp/a%2Fb.txt", .file 0o600 "raw"), ("/tmp/old", .symlink "/tmp/elsewhere"),
   ("/tmp/b.txt", .file 0o644 "old")]

/-- A URL whose `RawPath` is set: the directory `/tmp/a%2Fb`. -/
def rawDirURL : URL := ⟨"/tmp/a/b", "/tmp/a%2Fb"⟩

/-- A URL whose `RawPath` is set: the file `/tmp/a%2Fb.txt`. -/
def rawFileURL : URL := ⟨"/tmp/a/b.txt", "/tmp/a%2Fb.txt"⟩

/-! ## Descriptions used in the statements about the file getter and `getRunCommand` -/

/-- The guarantee of a successful `os.Symlink`: afterwards the new name is a
symbolic link (per `Lstat`) whose target (per `Readlink`) is the old name. -/
def SymlinkCreates {σ ε κ : Type} (env : Env σ ε κ) : Prop :=
  ∀ (oldname newname : String) (s s1 : σ), env.Symlink oldname newname s = (none, s1) →
    (∃ fi, env.Lstat newname s1 = .ok fi ∧ fi.Mode &&& ModeSymlink ≠ 0) ∧
      env.Readlink newname s1 = .ok oldname

/-- The text `sub` occurs in the text `msg`. -/
def Contains (msg sub : String) : Prop := sub.data <:+: msg.data

/-! ## Lemmas on the matcher -/

theorem Thread.advance_advance (a b : Nat) (t : Thread) :
    (t.advance a).advance b = t.advance (a + b) := by
  simp only [Thread.advance, List.drop_drop, Nat.add_assoc]

/-- A greedy run of one-character steps followed by a continuation that fails
after every shorter run: only the longest run is left. -/
theorem plusLoop_stepChar_flatMap (p : Char → Bool) (k : Thread → List Thread) :
    ∀ (fuel : Nat) (t : Thread), t.rest.length < fuel →
      (∀ j, 1 ≤ j → j < (t.rest.takeWhile p).length → k (t.advance j) = []) →
      (plusLoop (stepChar p) fuel t).flatMap k =
        if t.rest.takeWhile p = [] then [] else k (t.advance (t.rest.takeWhile p).length) := by
  intro fuel
  induction fuel with
  | zero => intro t h; omega
  | succ fuel ih =>
    intro t hlen hk
    cases hr : t.rest with
    | nil => simp [plusLoop, stepChar, hr]
    | cons c cs =>
      by_cases hp : p c = true
      · have hadv : (t.advance 1).rest = cs := by simp [Thread.advance, hr]
        have hlt : (t.advance 1).rest.length < t.rest.length := by simp [hadv, hr]
        have hfuel : (t.advance 1).rest.length < fuel := by
          rw [hadv]; rw [hr] at hlen; simp at hlen; omega
        have hk1 : ∀ j, 1 ≤ j → j < ((t.advance 1).rest.takeWhile p).length →
            k ((t.advance 1).advance j) = [] := by
          intro j hj1 hj
          rw [Thread.advance_advance]
          apply hk
          · omega
          · rw [hr, List.takeWhile_cons, if_pos hp]
            rw [hadv] at hj
            simp; omega
        have ih1 := ih (t.advance 1) hfuel hk1
        have hbody : stepChar p t = [t.advance 1] := by simp [stepChar, hr, hp]
        rw [plusLoop, hbody]
        simp only [List.flatMap_cons, List.flatMap_nil, List.append_nil, if_pos hlt,
          List.flatMap_append]
        rw [ih1, hadv, List.takeWhile_cons, if_pos hp]
        by_cases hcs : cs.takeWhile p = []
        · simp [hcs]
        · have hpos : 0 < (cs.takeWhile p).length := List.length_pos.mpr hcs
          have h1 : k (t.advance 1) = [] := by
            apply hk _ (le_refl 1)
            rw [hr, List.takeWhile_cons, if_pos hp]
            simp; omega
          simp [hcs, h1, Thread.advance_advance, Nat.add_comm]
      · simp [plusLoop, stepChar, hr, hp]


theorem drop_lt_takeWhile (p : Char → Bool) (xs : List Char) (j : Nat)
    (hj : j < (xs.takeWhile p).length) :
    ∃ c cs, xs.drop j = c :: cs ∧ p c = true := by
  induction xs generalizing j with
  | nil => simp at hj
  | cons x xs ih =>
    by_cases hx : p x = true
    · rw [List.takeWhile_cons, if_pos hx] at hj
      cases j with
      | zero => exact ⟨x, xs, rfl, hx⟩
      | succ j =>
        simp only [List.length_cons, Nat.add_lt_add_iff_right] at hj
        simpa using ih j hj
    · rw [List.takeWhile_cons, if_neg hx] at hj
      simp at hj

theorem drop_length_takeWhile (p : Char → Bool) (xs : List Char) :
    xs.drop (xs.takeWhile p).length = xs.dropWhile p := by
  induction xs with
  | nil => rfl
  | cons x xs ih =>
    by_cases hx : p x = true
    · simp [List.takeWhile_cons, List.dropWhile_cons, hx, ih]
    · simp [List.takeWhile_cons, List.dropWhile_cons, hx]

theorem take_length_takeWhile (p : Char → Bool) (xs : List Char) :
    xs.take (xs.takeWhile p).length = xs.takeWhile p := by
  induction xs with
  | nil => rfl
  | cons x xs ih =>
    by_cases hx : p x = true
    · simp [List.takeWhile_cons, hx, ih]
    · simp [List.takeWhile_cons, hx]

theorem isTokenChar_colon_ne (c : Char) (h : isTokenChar c = true) : c ≠ ':' := by
  rintro rfl
  revert h
  decide

theorem run_group_plus_concat (index : Nat) (p : Char → Bool) (sub next : Regexp)
    (hsub : ∀ t, sub.run t = stepChar p t) (t : Thread)
    (hk : ∀ j cap, 1 ≤ j → j < (t.rest.takeWhile p).length →
      next.run { t.advance j with caps := cap } = []) :
    (Regexp.concat (.capture index (.plus sub)) next).run t =
      if t.rest.takeWhile p = [] then []
      else next.run
        { pos := t.pos + (t.rest.takeWhile p).length
          rest := t.rest.dropWhile p
          caps := (index, t.rest.takeWhile p) :: t.caps } := by
  have hfun : sub.run = stepChar p := funext hsub
  simp only [Regexp.run, hfun, List.flatMap_map]
  rw [plusLoop_stepChar_flatMap p _ _ t (Nat.lt_succ_self _)]
  · split
    · rfl
    · simp [Thread.advance, drop_length_takeWhile, take_length_takeWhile]
  · intro j h1 hj
    exact hk j _ h1 hj


theorem run_tail (t : Thread) :
    (Regexp.concat (.capture 2 (.plus .anyCharNotNL)) .endText).run t =
      if t.rest ≠ [] ∧ t.rest.dropWhile isNotNL = [] then
        [{ pos := t.pos + t.rest.length, rest := [], caps := (2, t.rest) :: t.caps }]
      else [] := by
  rw [run_group_plus_concat 2 isNotNL .anyCharNotNL .endText (fun _ => rfl) t]
  · by_cases h1 : t.rest.takeWhile isNotNL = []
    · rw [if_pos h1]
      by_cases h2 : t.rest = []
      · simp [h2]
      · have := List.takeWhile_append_dropWhile isNotNL t.rest
        rw [h1] at this
        simp only [List.nil_append] at this
        rw [this]; simp [h2]
    · rw [if_neg h1]
      have hne : t.rest ≠ [] := by
        intro h; apply h1; simp [h]
      by_cases h2 : t.rest.dropWhile isNotNL = []
      · have h3 := List.takeWhile_append_dropWhile isNotNL t.rest
        rw [h2, List.append_nil] at h3
        simp [Regexp.run, h2, hne, h3]
      · simp [Regexp.run, h2, hne]
  · intro j cap h1 hj
    obtain ⟨c, cs, hc, -⟩ := drop_lt_takeWhile isNotNL t.rest j hj
    simp [Regexp.run, Thread.advance, hc]

theorem run_forcedRegexp (xs : List Char) :
    forcedRegexp.run ⟨0, xs, []⟩ =
      match forcedSplit xs with
      | some (tok, r) => [⟨xs.length, [], [(2, r), (1, tok)]⟩]
      | none => [] := by
  have hbegin : forcedRegexp.run ⟨0, xs, []⟩ =
      (Regexp.concat (.capture 1 (.plus (.charClass [('A', 'Z'), ('a', 'z'), ('0', '9')])))
        (.concat (.literal [':', ':'])
          (.concat (.capture 2 (.plus .anyCharNotNL)) .endText))).run ⟨0, xs, []⟩ := by
    rw [forcedRegexp, Regexp.run]
    simp [Regexp.run]
  rw [hbegin, run_group_plus_concat 1 isTokenChar
    (.charClass [('A', 'Z'), ('a', 'z'), ('0', '9')]) _ (fun _ => rfl)]
  · have hlen : xs.length = (xs.takeWhile isTokenChar).length + (xs.dropWhile isTokenChar).length := by
      have := congrArg List.length (List.takeWhile_append_dropWhile isTokenChar xs)
      rw [List.length_append] at this
      exact this.symm
    simp only [forcedSplit]
    by_cases h1 : xs.takeWhile isTokenChar = []
    · simp [h1]
    · by_cases h2 : [':', ':'].isPrefixOf (xs.dropWhile isTokenChar) = true
      · have h3 : xs.dropWhile isTokenChar = ':' :: ':' :: (xs.dropWhile isTokenChar).drop 2 := by
          have := List.isPrefixOf_iff_prefix.mp h2
          obtain ⟨r, hr⟩ := this
          rw [← hr]; simp
        have hlen2 : (xs.dropWhile isTokenChar).length = 2 + ((xs.dropWhile isTokenChar).drop 2).length := by
          have := congrArg List.length h3
          simp only [List.length_cons] at this
          omega
        rw [if_neg h1, Regexp.run, Regexp.run, if_pos h2]
        simp only [List.flatMap_cons, List.flatMap_nil, List.append_nil]
        rw [run_tail]
        simp only [Thread.advance, List.length_cons, List.length_nil, Nat.zero_add,
          Nat.reduceAdd]
        by_cases h4 : (xs.dropWhile isTokenChar).drop 2 ≠ [] ∧
            ((xs.dropWhile isTokenChar).drop 2).dropWhile isNotNL = []
        · rw [if_pos h4, if_pos ⟨h1, h2, h4.1, h4.2⟩]
          simp only [List.cons.injEq, and_true, Thread.mk.injEq, true_and]
          omega
        · rw [if_neg h4, if_neg]
          rintro ⟨-, -, h5, h6⟩
          exact h4 ⟨h5, h6⟩
      · rw [if_neg h1, Regexp.run, Regexp.run, if_neg h2, if_neg]
        · rfl
        · rintro ⟨-, h5, -⟩
          exact h2 h5
  · intro j cap h1 hj
    obtain ⟨c, cs, hc, hp⟩ := drop_lt_takeWhile isTokenChar xs j hj
    have hne : (':' == c) = false := by
      simpa using (isTokenChar_colon_ne c hp).symm
    simp [Regexp.run, Thread.advance, hc, List.isPrefixOf, hne]


theorem isTokenChar_eq (c : Char) : isTokenChar c = c.isAlphanum := by
  simp only [isTokenChar, inClass, List.any_cons, List.any_nil, Bool.or_false,
    Char.isAlphanum, Char.isAlpha, Char.isUpper, Char.isLower, Char.isDigit]
  have h : ∀ a b : Char, decide (a ≤ b) = decide (a.val ≤ b.val) := fun _ _ => rfl
  have hge : ∀ a b : UInt32, decide (a ≥ b) = decide (b ≤ a) := fun _ _ => rfl
  have hA : 'A'.val = 65 := rfl
  have hZ : 'Z'.val = 90 := rfl
  have ha : 'a'.val = 97 := rfl
  have hz : 'z'.val = 122 := rfl
  have h0 : '0'.val = 48 := rfl
  have h9 : '9'.val = 57 := rfl
  simp only [h, hge, hA, hZ, ha, hz, h0, h9, Bool.or_assoc]

theorem search_forcedRegexp_pos (pos : Nat) (xs : List Char) (h : 0 < pos) :
    forcedRegexp.search pos xs = none := by
  have hrun : ∀ p ys, 0 < p → forcedRegexp.run ⟨p, ys, []⟩ = [] := by
    intro p ys hp
    have : p ≠ 0 := by omega
    simp [forcedRegexp, Regexp.run, this]
  induction xs generalizing pos with
  | nil => simp [Regexp.search, hrun pos [] h]
  | cons x xs ih =>
    rw [Regexp.search, hrun pos _ h]
    exact ih (pos + 1) (by omega)

theorem search_forcedRegexp (xs : List Char) :
    forcedRegexp.search 0 xs =
      (forcedSplit xs).map fun tr => (0, ⟨xs.length, [], [(2, tr.2), (1, tr.1)]⟩) := by
  cases xs with
  | nil => rfl
  | cons x xs =>
    rw [Regexp.search, run_forcedRegexp]
    cases h : forcedSplit (x :: xs) with
    | none => simp [search_forcedRegexp_pos]
    | some tr => simp

theorem FindStringSubmatch_forcedRegexp (s : String) :
    forcedRegexp.FindStringSubmatch s =
      (forcedSplit s.data).map fun tr => [s, String.mk tr.1, String.mk tr.2] := by
  rw [Regexp.FindStringSubmatch, search_forcedRegexp]
  cases h : forcedSplit s.data with
  | none => rfl
  | some tr =>
    have hs : String.mk (List.take s.data.length s.data) = s := by
      rw [List.take_length]
    have hn : forcedRegexp.numSubexp = 2 := rfl
    have hr : List.range 2 = [0, 1] := rfl
    simp only [Option.map_some', hn, hr, Nat.sub_zero, List.drop_zero, List.map_cons,
      List.map_nil, List.lookup]
    rw [hs]
    rfl

theorem getForcedGetter_eq (s : String) :
    getForcedGetter s =
      match forcedSplit s.data with
      | some (tok, r) => (String.mk tok, String.mk r)
      | none => ("", s) := by
  rw [getForcedGetter, FindStringSubmatch_forcedRegexp]
  cases h : forcedSplit s.data with
  | none => rfl
  | some tr => rfl


theorem takeWhile_append_stop (p : Char → Bool) (tok : List Char) (c : Char) (rest : List Char)
    (htok : ∀ x ∈ tok, p x = true) (hc : p c = false) :
    (tok ++ c :: rest).takeWhile p = tok ∧ (tok ++ c :: rest).dropWhile p = c :: rest := by
  induction tok with
  | nil => simp [List.takeWhile_cons, List.dropWhile_cons, hc]
  | cons x tok ih =>
    have hx : p x = true := htok x (List.mem_cons_self _ _)
    have ih1 := ih (fun y hy => htok y (List.mem_cons_of_mem _ hy))
    simp [List.takeWhile_cons, List.dropWhile_cons, hx, ih1.1, ih1.2]

theorem forcedSplit_some (xs tok r : List Char) (h : forcedSplit xs = some (tok, r)) :
    tok ≠ [] ∧ (∀ c ∈ tok, c.isAlphanum = true) ∧ r ≠ [] ∧ (∀ c ∈ r, c ≠ '\n') ∧
      xs = tok ++ ':' :: ':' :: r := by
  unfold forcedSplit at h
  simp only at h
  split at h
  · rename_i hc
    obtain ⟨h1, h2, h3, h4⟩ := hc
    simp only [Option.some.injEq, Prod.mk.injEq] at h
    obtain ⟨ht, hr⟩ := h
    have hpre : xs.dropWhile isTokenChar = ':' :: ':' :: (xs.dropWhile isTokenChar).drop 2 := by
      obtain ⟨r', hr'⟩ := List.isPrefixOf_iff_prefix.mp h2
      rw [← hr']; simp
    subst ht hr
    refine ⟨h1, ?_, h3, ?_, ?_⟩
    · intro c hc
      rw [← isTokenChar_eq]
      exact List.mem_takeWhile_imp hc
    · intro c hc
      have := (List.dropWhile_eq_nil_iff.mp h4) c hc
      simpa [isNotNL] using this
    · conv_lhs => rw [← List.takeWhile_append_dropWhile isTokenChar xs, hpre]
  · exact absurd h (by simp)

theorem forcedSplit_append (tok r : List Char) (h1 : tok ≠ [])
    (h2 : ∀ c ∈ tok, c.isAlphanum = true) (h3 : r ≠ []) (h4 : ∀ c ∈ r, c ≠ '\n') :
    forcedSplit (tok ++ ':' :: ':' :: r) = some (tok, r) := by
  have hcolon : isTokenChar ':' = false := by decide
  obtain ⟨ht, hd⟩ := takeWhile_append_stop isTokenChar tok ':' (':' :: r)
    (fun x hx => by rw [isTokenChar_eq]; exact h2 x hx) hcolon
  have hnl : r.dropWhile isNotNL = [] := by
    apply List.dropWhile_eq_nil_iff.mpr
    intro c hc
    simpa [isNotNL] using h4 c hc
  unfold forcedSplit
  simp only [ht, hd]
  rw [if_pos]
  · rfl
  · refine ⟨h1, ?_, h3, hnl⟩
    simp [List.isPrefixOf]

theorem data_forced (t r : String) :
    (t ++ "::" ++ r).data = t.data ++ ':' :: ':' :: r.data := by
  simp [String.data_append]

theorem hasForcedPrefix_of_split (s : String)
    (h : ∃ t r : String, t ≠ "" ∧ (∀ c ∈ t.data, c.isAlphanum = true) ∧ r ≠ "" ∧
      s = t ++ "::" ++ r) : hasForcedPrefix s.data = true := by
  obtain ⟨t, r, ht, hal, hr, rfl⟩ := h
  have hcolon : Char.isAlphanum ':' = false := by decide
  obtain ⟨h1, h2⟩ := takeWhile_append_stop Char.isAlphanum t.data ':' (':' :: r.data) hal hcolon
  have ht' : t.data ≠ [] := fun h => ht (String.ext h)
  have hr' : r.data ≠ [] := fun h => hr (String.ext h)
  rw [data_forced, hasForcedPrefix, h1, h2]
  simp [List.isPrefixOf, ht', hr']


/-- C2: a source that does not start with one or more ASCII letters or digits
immediately followed by `::` and at least one further character is returned
unchanged, with the empty forced scheme. -/
theorem getForcedGetter_unforced (s : String)
    (h : ¬ ∃ t r : String, t ≠ "" ∧ (∀ c ∈ t.data, c.isAlphanum = true) ∧ r ≠ "" ∧
      s = t ++ "::" ++ r) :
    getForcedGetter s = ("", s) := by
  rw [getForcedGetter_eq]
  cases hsplit : forcedSplit s.data with
  | none => rfl
  | some tr =>
    obtain ⟨tok, r⟩ := tr
    obtain ⟨h1, h2, h3, -, h5⟩ := forcedSplit_some _ _ _ hsplit
    exfalso
    apply h
    refine ⟨String.mk tok, String.mk r, ?_, h2, ?_, ?_⟩
    · intro hc; exact h1 (congrArg String.data hc)
    · intro hc; exact h3 (congrArg String.data hc)
    · apply String.ext
      rw [data_forced]
      exact h5

theorem getForcedGetter_unforced_witness :
    getForcedGetter "" = ("", "") ∧ getForcedGetter "::x" = ("", "::x") ∧
      getForcedGetter "a::" = ("", "a::") ∧
      getForcedGetter "https://example.com/x" = ("", "https://example.com/x") :=
  ⟨getForcedGetter_unforced "" fun h => absurd (hasForcedPrefix_of_split _ h) (by decide),
   getForcedGetter_unforced "::x" fun h => absurd (hasForcedPrefix_of_split _ h) (by decide),
   getForcedGetter_unforced "a::" fun h => absurd (hasForcedPrefix_of_split _ h) (by decide),
   getForcedGetter_unforced "https://example.com/x"
    fun h => absurd (hasForcedPrefix_of_split _ h) (by decide)⟩

/-- C3 (as stated) fails: with the token `git` and the non-empty remainder
`a\nb`, which contains a line feed, no scheme is split off. -/
theorem getForcedGetter_split_counterexample :
    ("git" : String) ≠ "" ∧ (∀ c ∈ ("git" : String).data, c.isAlphanum = true) ∧
      ("a\nb" : String) ≠ "" ∧
      getForcedGetter ("git" ++ "::" ++ "a\nb") = ("", "git::a\nb") ∧
      getForcedGetter ("git" ++ "::" ++ "a\nb") ≠ ("git", "a\nb") := by
  decide

/-- C3 (amended): for every non-empty token `t` of ASCII letters and digits and
every non-empty remainder `r` that contains no line feed,
`getForcedGetter (t ++ "::" ++ r) = (t, r)`. -/
theorem getForcedGetter_split (t r : String) (ht : t ≠ "")
    (hal : ∀ c ∈ t.data, c.isAlphanum = true) (hr : r ≠ "") (hnl : ∀ c ∈ r.data, c ≠ '\n') :
    getForcedGetter (t ++ "::" ++ r) = (t, r) := by
  have ht' : t.data ≠ [] := fun h => ht (String.ext h)
  have hr' : r.data ≠ [] := fun h => hr (String.ext h)
  rw [getForcedGetter_eq, data_forced, forcedSplit_append t.data r.data ht' hal hr' hnl]

theorem getForcedGetter_split_witness :
    getForcedGetter ("git" ++ "::" ++ "https://example.com/x") = ("git", "https://example.com/x") :=
  getForcedGetter_split "git" "https://example.com/x" (by decide) (by decide) (by decide)
    (by decide)

/-- C4: whenever `getForcedGetter s` returns a non-empty scheme, the scheme is a
run of ASCII letters and digits (so it contains no colon), the locator is
non-empty, `scheme ++ "::" ++ locator = s`, and the separator is the first
occurrence of `::` in `s`: any other way of cutting `s` around a `::` has a
prefix at least as long as the scheme. -/
theorem getForcedGetter_first_separator (s scheme locator : String)
    (h : getForcedGetter s = (scheme, locator)) (hne : scheme ≠ "") :
    (∀ c ∈ scheme.data, c.isAlphanum = true) ∧ ':' ∉ scheme.data ∧ locator ≠ "" ∧
      scheme ++ "::" ++ locator = s ∧
      ∀ pre post : String, s = pre ++ "::" ++ post → scheme.length ≤ pre.length := by
  rw [getForcedGetter_eq] at h
  cases hsplit : forcedSplit s.data with
  | none =>
    rw [hsplit] at h
    simp only [Prod.mk.injEq] at h
    exact absurd h.1.symm hne
  | some tr =>
    obtain ⟨tok, r⟩ := tr
    rw [hsplit] at h
    simp only [Prod.mk.injEq] at h
    obtain ⟨hs, hl⟩ := h
    subst hs hl
    obtain ⟨-, h2, h3, -, h5⟩ := forcedSplit_some _ _ _ hsplit
    have hcolon : ':' ∉ tok := by
      intro hmem
      have := h2 _ hmem
      revert this
      decide
    refine ⟨h2, hcolon, ?_, ?_, ?_⟩
    · intro hc; exact h3 (congrArg String.data hc)
    · apply String.ext
      rw [data_forced]
      exact h5.symm
    · intro pre post hpp
      have hd := congrArg String.data hpp
      rw [data_forced, h5] at hd
      show tok.length ≤ pre.data.length
      by_contra hlt
      have hlt : pre.data.length < tok.length := by omega
      have h1 := congrArg (fun l => l[pre.data.length]?) hd
      simp only [List.getElem?_append_left hlt] at h1
      rw [List.getElem?_append_right (le_refl _)] at h1
      simp only [Nat.sub_self, List.getElem?_cons_zero] at h1
      exact hcolon (List.getElem?_mem h1)

theorem getForcedGetter_first_separator_witness :
    (∀ c ∈ ("a" : String).data, c.isAlphanum = true) ∧ ':' ∉ ("a" : String).data ∧
      ("b::c" : String) ≠ "" ∧ ("a" : String) ++ "::" ++ "b::c" = "a::b::c" ∧
      ∀ pre post : String, "a::b::c" = pre ++ "::" ++ post → ("a" : String).length ≤ pre.length :=
  getForcedGetter_first_separator "a::b::c" "a" "b::c" (by decide) (by decide)

/-! ## The file getter -/

/-- C1: when the source is an existing directory and the destination exists
(per `Lstat`) as anything but a symbolic link, `Get` returns the error
"destination exists and is not a symlink", makes no state-changing call and
leaves the file system as it was. -/
theorem Get_destination_not_symlink {σ ε κ : Type} (env : Env σ ε κ) (g : FileGetter) (ctx : κ)
    (dst : String) (u : URL) (s : σ) (fi dfi : FileInfo)
    (hsrc : env.Stat (sourcePath u) s = .ok fi) (hdir : fi.IsDir = true)
    (hdst : env.Lstat dst s = .ok dfi) (hplain : dfi.Mode &&& ModeSymlink = 0) :
    (FileGetter.Get env g ctx dst u s).err =
        some (.errorf "destination exists and is not a symlink") ∧
      (FileGetter.Get env g ctx dst u s).calls = [] ∧
      (FileGetter.Get env g ctx dst u s).state = s := by
  simp [FileGetter.Get, hsrc, hdir, hdst, hplain]

theorem Get_destination_not_symlink_witness :
    (FileGetter.Get memEnv linkGetter () "/tmp/keep" ⟨"/tmp/srcdir", ""⟩ fs0).err =
        some (.errorf "destination exists and is not a symlink") ∧
      (FileGetter.Get memEnv linkGetter () "/tmp/keep" ⟨"/tmp/srcdir", ""⟩ fs0).calls = [] ∧
      (FileGetter.Get memEnv linkGetter () "/tmp/keep" ⟨"/tmp/srcdir", ""⟩ fs0).state = fs0 :=
  Get_destination_not_symlink memEnv linkGetter () "/tmp/keep" ⟨"/tmp/srcdir", ""⟩ fs0
    ⟨ModeDir ||| 0o755⟩ ⟨ModeDir ||| 0o755⟩ rfl (by decide) rfl (by decide)

theorem memEnv_symlinkCreates : SymlinkCreates memEnv := by
  intro oldname newname s s1 h
  simp only [memEnv] at h ⊢
  cases hl : List.lookup newname s with
  | some n => rw [hl] at h; simp at h
  | none =>
    rw [hl] at h
    simp only [Prod.mk.injEq, true_and] at h
    subst h
    simp [List.lookup, Node.info]
    decide

theorem sourcePath_eq (u : URL) (path : String)
    (hpath : (u.RawPath ≠ "" ∧ path = u.RawPath) ∨ (u.RawPath = "" ∧ path = u.Path)) :
    sourcePath u = path := by
  rcases hpath with ⟨h, rfl⟩ | ⟨h, rfl⟩
  · simp [sourcePath, h]
  · simp [sourcePath, h]

/-- C5: let the source path be `u.RawPath` when that is not empty and `u.Path`
otherwise. When the source path is an existing directory, the destination does
not exist or is a symbolic link, and the removal (made for an existing link),
the creation of the parent directories and the symlink call succeed, `Get`
returns no error; its calls are the removal of an existing link, `MkdirAll` and
`Symlink` from the source path to the destination, in this order; and in the
final state the destination is a symbolic link whose target is the source
path. -/
theorem Get_links_destination {σ ε κ : Type} (env : Env σ ε κ) (g : FileGetter) (ctx : κ)
    (dst : String) (u : URL) (path : String) (s s1 s2 s3 : σ) (fi : FileInfo) (pre : List Call)
    (hlaw : SymlinkCreates env)
    (hpath : (u.RawPath ≠ "" ∧ path = u.RawPath) ∨ (u.RawPath = "" ∧ path = u.Path))
    (hsrc : env.Stat path s = .ok fi) (hdir : fi.IsDir = true)
    (hdst : (∃ e, env.Lstat dst s = .error e ∧ env.IsNotExist e = true ∧ s1 = s ∧ pre = []) ∨
      (∃ dfi, env.Lstat dst s = .ok dfi ∧ dfi.Mode &&& ModeSymlink ≠ 0 ∧
        env.Remove dst s = (none, s1) ∧ pre = [.Remove dst]))
    (hmk : env.MkdirAll (env.Dir dst) (env.mode g.client 0o755) s1 = (none, s2))
    (hln : env.Symlink path dst s2 = (none, s3)) :
    FileGetter.Get env g ctx dst u s =
        ⟨none, s3, pre ++ [.MkdirAll (env.Dir dst) (env.mode g.client 0o755),
          .Symlink path dst]⟩ ∧
      (∃ lfi, env.Lstat dst s3 = .ok lfi ∧ lfi.Mode &&& ModeSymlink ≠ 0) ∧
      env.Readlink dst s3 = .ok path := by
  have hp := sourcePath_eq u path hpath
  refine ⟨?_, hlaw _ _ _ _ hln⟩
  rcases hdst with ⟨e, hl, hne, rfl, rfl⟩ | ⟨dfi, hl, hsym, hrm, rfl⟩
  · simp [FileGetter.Get, FileGetter.Get.link, hp, hsrc, hdir, hl, hne, hmk, hln]
  · simp [FileGetter.Get, FileGetter.Get.link, hp, hsrc, hdir, hl, hsym, hrm, hmk, hln]

theorem Get_links_destination_witness :
    (FileGetter.Get memEnv linkGetter () "/tmp/old" rawDirURL fs1 =
        ⟨none, ("/tmp/old", .symlink "/tmp/a%2Fb") :: (memEnv.Remove "/tmp/old" fs1).2,
          [.Remove "/tmp/old"] ++ [.MkdirAll "/tmp" 0o755, .Symlink "/tmp/a%2Fb" "/tmp/old"]⟩ ∧
      (∃ lfi, memEnv.Lstat "/tmp/old"
          (("/tmp/old", .symlink "/tmp/a%2Fb") :: (memEnv.Remove "/tmp/old" fs1).2) = .ok lfi ∧
        lfi.Mode &&& ModeSymlink ≠ 0) ∧
      memEnv.Readlink "/tmp/old"
        (("/tmp/old", .symlink "/tmp/a%2Fb") :: (memEnv.Remove "/tmp/old" fs1).2) =
          .ok "/tmp/a%2Fb") ∧
    (FileGetter.Get memEnv linkGetter () "/tmp/out" ⟨"/tmp/srcdir", ""⟩ fs0 =
        ⟨none, ("/tmp/out", .symlink "/tmp/srcdir") :: fs0,
          [] ++ [.MkdirAll "/tmp" 0o755, .Symlink "/tmp/srcdir" "/tmp/out"]⟩ ∧
      (∃ lfi, memEnv.Lstat "/tmp/out" (("/tmp/out", .symlink "/tmp/srcdir") :: fs0) = .ok lfi ∧
        lfi.Mode &&& ModeSymlink ≠ 0) ∧
      memEnv.Readlink "/tmp/out" (("/tmp/out", .symlink "/tmp/srcdir") :: fs0) =
        .ok "/tmp/srcdir") :=
  ⟨Get_links_destination memEnv linkGetter () "/tmp/old" rawDirURL "/tmp/a%2Fb" fs1
      (memEnv.Remove "/tmp/old" fs1).2 (memEnv.Remove "/tmp/old" fs1).2
      (("/tmp/old", .symlink "/tmp/a%2Fb") :: (memEnv.Remove "/tmp/old" fs1).2)
      ⟨ModeDir ||| 0o700⟩ [.Remove "/tmp/old"] memEnv_symlinkCreates
      (Or.inl ⟨by decide, rfl⟩) rfl (by decide)
      (Or.inr ⟨⟨ModeSymlink ||| 0o777⟩, rfl, by decide, rfl, rfl⟩) rfl rfl,
    Get_links_destination memEnv linkGetter () "/tmp/out" ⟨"/tmp/srcdir", ""⟩ "/tmp/srcdir" fs0
      fs0 fs0 (("/tmp/out", .symlink "/tmp/srcdir") :: fs0)
      ⟨ModeDir ||| 0o755⟩ [] memEnv_symlinkCreates
      (Or.inr ⟨rfl, rfl⟩) rfl (by decide)
      (Or.inl ⟨.ENOENT, rfl, rfl, rfl, rfl⟩) rfl rfl⟩

/-- C6: `Get` returns an error whenever `Stat` of the source path fails or
reports something that is not a directory, and `GetFile` returns an error
whenever `Stat` of the source path fails or reports a directory; in each case
no state-changing call is made and the file system is as before. -/
theorem source_invalid_no_action {σ ε κ : Type} (env : Env σ ε κ) (g : FileGetter) (ctx : κ)
    (dst : String) (u : URL) (s : σ) :
    (((∃ e, env.Stat (sourcePath u) s = .error e) ∨
        (∃ fi, env.Stat (sourcePath u) s = .ok fi ∧ fi.IsDir = false)) →
      (FileGetter.Get env g ctx dst u s).err ≠ none ∧
        (FileGetter.Get env g ctx dst u s).calls = [] ∧
        (FileGetter.Get env g ctx dst u s).state = s) ∧
    (((∃ e, env.Stat (sourcePath u) s = .error e) ∨
        (∃ fi, env.Stat (sourcePath u) s = .ok fi ∧ fi.IsDir = true)) →
      (FileGetter.GetFile env g ctx dst u s).err ≠ none ∧
        (FileGetter.GetFile env g ctx dst u s).calls = [] ∧
        (FileGetter.GetFile env g ctx dst u s).state = s) := by
  constructor
  · rintro (⟨e, he⟩ | ⟨fi, hfi, hd⟩)
    · simp [FileGetter.Get, he]
    · simp [FileGetter.Get, hfi, hd]
  · rintro (⟨e, he⟩ | ⟨fi, hfi, hd⟩)
    · simp [FileGetter.GetFile, he]
    · simp [FileGetter.GetFile, hfi, hd]

theorem source_invalid_no_action_witness :
    ((FileGetter.Get memEnv linkGetter () "/tmp/old" ⟨"/tmp/srcdir/a.txt", ""⟩ fs0).err ≠ none ∧
        (FileGetter.Get memEnv linkGetter () "/tmp/old" ⟨"/tmp/srcdir/a.txt", ""⟩ fs0).calls = [] ∧
        (FileGetter.Get memEnv linkGetter () "/tmp/old" ⟨"/tmp/srcdir/a.txt", ""⟩ fs0).state = fs0) ∧
      ((FileGetter.GetFile memEnv linkGetter () "/tmp/old" ⟨"/tmp/missing", ""⟩ fs0).err ≠ none ∧
        (FileGetter.GetFile memEnv linkGetter () "/tmp/old" ⟨"/tmp/missing", ""⟩ fs0).calls = [] ∧
        (FileGetter.GetFile memEnv linkGetter () "/tmp/old" ⟨"/tmp/missing", ""⟩ fs0).state = fs0) :=
  ⟨(source_invalid_no_action memEnv linkGetter () "/tmp/old" ⟨"/tmp/srcdir/a.txt", ""⟩ fs0).1
      (Or.inr ⟨⟨0o644⟩, rfl, by decide⟩),
    (source_invalid_no_action memEnv linkGetter () "/tmp/old" ⟨"/tmp/missing", ""⟩ fs0).2
      (Or.inl ⟨.ENOENT, rfl⟩)⟩

/-- C7: for a source that is a file, and a destination that does not exist or
whose removal succeeds, once the parent directories are created: if `Copy` is
unset, `GetFile` calls `Symlink` from the source path to the destination,
returns its result and does not call `copyFile`; if `Copy` is set, `GetFile`
calls no `Symlink` and returns the result of `copyFile` called with the
destination, the source path, the source's file mode and the client's umask,
with symlinks disabled exactly when a client is bound and its `DisableSymlinks`
is true. -/
theorem GetFile_copy_flag {σ ε κ : Type} (env : Env σ ε κ) (g : FileGetter) (ctx : κ)
    (dst : String) (u : URL) (s s1 s2 : σ) (fi : FileInfo) (pre : List Call)
    (hsrc : env.Stat (sourcePath u) s = .ok fi) (hfile : fi.IsDir = false)
    (hdst : (∃ e, env.Lstat dst s = .error e ∧ env.IsNotExist e = true ∧ s1 = s ∧ pre = []) ∨
      (∃ dfi, env.Lstat dst s = .ok dfi ∧ env.Remove dst s = (none, s1) ∧ pre = [.Remove dst]))
    (hmk : env.MkdirAll (env.Dir dst) (env.mode g.client 0o755) s1 = (none, s2)) :
    (g.Copy = false →
      FileGetter.GetFile env g ctx dst u s =
        ⟨(env.Symlink (sourcePath u) dst s2).1.map .sys, (env.Symlink (sourcePath u) dst s2).2,
          pre ++ [.MkdirAll (env.Dir dst) (env.mode g.client 0o755),
            .Symlink (sourcePath u) dst]⟩) ∧
    (g.Copy = true →
      ∃ disableSymlinks : Bool,
        (disableSymlinks = true ↔ ∃ c, g.client = some c ∧ c.DisableSymlinks = true) ∧
        FileGetter.GetFile env g ctx dst u s =
          ⟨(env.copyFile ctx dst (sourcePath u) disableSymlinks fi.Mode (env.umask g.client)
              s2).1.2.map .sys,
            (env.copyFile ctx dst (sourcePath u) disableSymlinks fi.Mode (env.umask g.client)
              s2).2,
            pre ++ [.MkdirAll (env.Dir dst) (env.mode g.client 0o755),
              .copyFile dst (sourcePath u) disableSymlinks fi.Mode (env.umask g.client)]⟩) := by
  have hrun : FileGetter.GetFile env g ctx dst u s =
      FileGetter.GetFile.transfer env g ctx dst (sourcePath u) fi pre s1 := by
    rcases hdst with ⟨e, hl, hne, rfl, rfl⟩ | ⟨dfi, hl, hrm, rfl⟩
    · simp [FileGetter.GetFile, hsrc, hfile, hl, hne]
    · simp [FileGetter.GetFile, hsrc, hfile, hl, hrm]
  constructor
  · intro hc
    rw [hrun]
    simp [FileGetter.GetFile.transfer, hmk, hc]
  · intro hc
    refine ⟨(match g.client with | some c => c.DisableSymlinks | none => false), ?_, ?_⟩
    · cases g.client with
      | none => simp
      | some c => simp
    · rw [hrun]
      simp [FileGetter.GetFile.transfer, hmk, hc]

theorem GetFile_copy_flag_witness :
    FileGetter.GetFile memEnv linkGetter () "/tmp/b.txt" ⟨"/tmp/srcdir/a.txt", ""⟩ fs0 =
        ⟨(memEnv.Symlink "/tmp/srcdir/a.txt" "/tmp/b.txt"
            (memEnv.Remove "/tmp/b.txt" fs0).2).1.map .sys,
          (memEnv.Symlink "/tmp/srcdir/a.txt" "/tmp/b.txt" (memEnv.Remove "/tmp/b.txt" fs0).2).2,
          [.Remove "/tmp/b.txt"] ++ [.MkdirAll "/tmp" 0o755,
            .Symlink "/tmp/srcdir/a.txt" "/tmp/b.txt"]⟩ ∧
      ∃ disableSymlinks : Bool,
        (disableSymlinks = true ↔ ∃ c, copyGetter.client = some c ∧ c.DisableSymlinks = true) ∧
        FileGetter.GetFile memEnv copyGetter () "/tmp/new.txt" ⟨"/tmp/srcdir/a.txt", ""⟩ fs0 =
          ⟨(memEnv.copyFile () "/tmp/new.txt" "/tmp/srcdir/a.txt" disableSymlinks 0o644 0o022
              fs0).1.2.map .sys,
            (memEnv.copyFile () "/tmp/new.txt" "/tmp/srcdir/a.txt" disableSymlinks 0o644 0o022
              fs0).2,
            [] ++ [.MkdirAll "/tmp" 0o755,
              .copyFile "/tmp/new.txt" "/tmp/srcdir/a.txt" disableSymlinks 0o644 0o022]⟩ :=
  ⟨(GetFile_copy_flag memEnv linkGetter () "/tmp/b.txt" ⟨"/tmp/srcdir/a.txt", ""⟩ fs0
      (memEnv.Remove "/tmp/b.txt" fs0).2 (memEnv.Remove "/tmp/b.txt" fs0).2 ⟨0o644⟩
      [.Remove "/tmp/b.txt"] rfl (by decide) (Or.inr ⟨⟨0o644⟩, rfl, rfl, rfl⟩) rfl).1 rfl,
    (GetFile_copy_flag memEnv copyGetter () "/tmp/new.txt" ⟨"/tmp/srcdir/a.txt", ""⟩ fs0
      fs0 fs0 ⟨0o644⟩ [] rfl (by decide) (Or.inl ⟨.ENOENT, rfl, rfl, rfl, rfl⟩) rfl).2 rfl⟩

/-- C8 (as stated) fails: with the file `/tmp/srcdir/a.txt` as source and the
destination `/tmp/keep`, a directory that is not empty, the removal fails;
`GetFile` returns that error, the destination and what is in it are still
there, and nothing is linked or copied. -/
theorem GetFile_no_symlink_gate_counterexample :
    memEnv.Stat "/tmp/srcdir/a.txt" fs0 = .ok ⟨0o644⟩ ∧
      (⟨0o644⟩ : FileInfo).IsDir = false ∧
      memEnv.Lstat "/tmp/keep" fs0 = .ok ⟨ModeDir ||| 0o755⟩ ∧
      FileGetter.GetFile memEnv linkGetter () "/tmp/keep" ⟨"/tmp/srcdir/a.txt", ""⟩ fs0 =
        ⟨some (.sys .ENOTEMPTY), fs0, [.Remove "/tmp/keep"]⟩ ∧
      memEnv.Lstat "/tmp/keep"
          (FileGetter.GetFile memEnv linkGetter () "/tmp/keep" ⟨"/tmp/srcdir/a.txt", ""⟩
            fs0).state = .ok ⟨ModeDir ||| 0o755⟩ ∧
      FileGetter.GetFile memEnv copyGetter () "/tmp/keep" ⟨"/tmp/srcdir/a.txt", ""⟩ fs0 =
        ⟨some (.sys .ENOTEMPTY), fs0, [.Remove "/tmp/keep"]⟩ := by
  refine ⟨rfl, by decide, rfl, rfl, rfl, rfl⟩

/-- C8 (amended): let the source path be `u.RawPath` when that is not empty and
`u.Path` otherwise. For a source that is a file and a destination that exists
in any form (whatever `Lstat` reports about it), the first state-changing call
of `GetFile` is the removal of the destination, and `GetFile` never fails with
an error of its own making (such as a conflict), only with the error of a
failed call. A failed removal is returned as it is and nothing else is done; a
failed creation of the parent directories after the removal likewise; and once
both succeeded, `GetFile` makes exactly one more call and returns its result:
`Symlink` from the source path to the destination when `Copy` is unset,
`copyFile` with the destination, the source path, the source's file mode and
the client's umask when `Copy` is set. -/
theorem GetFile_no_symlink_gate {σ ε κ : Type} (env : Env σ ε κ) (g : FileGetter) (ctx : κ)
    (dst : String) (u : URL) (path : String) (s : σ) (fi dfi : FileInfo)
    (hpath : (u.RawPath ≠ "" ∧ path = u.RawPath) ∨ (u.RawPath = "" ∧ path = u.Path))
    (hsrc : env.Stat path s = .ok fi) (hfile : fi.IsDir = false)
    (hdst : env.Lstat dst s = .ok dfi) :
    (∃ rest, (FileGetter.GetFile env g ctx dst u s).calls = .Remove dst :: rest) ∧
      (∀ msg, (FileGetter.GetFile env g ctx dst u s).err ≠ some (.errorf msg)) ∧
      (∀ e s1, env.Remove dst s = (some e, s1) →
        FileGetter.GetFile env g ctx dst u s = ⟨some (.sys e), s1, [.Remove dst]⟩) ∧
      (∀ s1, env.Remove dst s = (none, s1) →
        (∀ e s2, env.MkdirAll (env.Dir dst) (env.mode g.client 0o755) s1 = (some e, s2) →
          FileGetter.GetFile env g ctx dst u s =
            ⟨some (.sys e), s2,
              [.Remove dst, .MkdirAll (env.Dir dst) (env.mode g.client 0o755)]⟩) ∧
        (∀ s2, env.MkdirAll (env.Dir dst) (env.mode g.client 0o755) s1 = (none, s2) →
          (g.Copy = false →
            FileGetter.GetFile env g ctx dst u s =
              ⟨(env.Symlink path dst s2).1.map .sys, (env.Symlink path dst s2).2,
                [.Remove dst, .MkdirAll (env.Dir dst) (env.mode g.client 0o755),
                  .Symlink path dst]⟩) ∧
          (g.Copy = true →
            ∃ disableSymlinks : Bool,
              (disableSymlinks = true ↔ ∃ c, g.client = some c ∧ c.DisableSymlinks = true) ∧
              FileGetter.GetFile env g ctx dst u s =
                ⟨(env.copyFile ctx dst path disableSymlinks fi.Mode (env.umask g.client)
                    s2).1.2.map .sys,
                  (env.copyFile ctx dst path disableSymlinks fi.Mode (env.umask g.client) s2).2,
                  [.Remove dst, .MkdirAll (env.Dir dst) (env.mode g.client 0o755),
                    .copyFile dst path disableSymlinks fi.Mode (env.umask g.client)]⟩))) := by
  have hp := sourcePath_eq u path hpath
  have hrun : FileGetter.GetFile env g ctx dst u s =
      match env.Remove dst s with
      | (some err, s1) => ⟨some (.sys err), s1, [.Remove dst]⟩
      | (none, s1) =>
        FileGetter.GetFile.transfer env g ctx dst path fi [.Remove dst] s1 := by
    simp [FileGetter.GetFile, hp, hsrc, hfile, hdst]
  rw [hrun]
  rcases hrm : env.Remove dst s with ⟨_ | e, s1⟩
  · refine ⟨?_, ?_, ?_, ?_⟩
    · simp only [FileGetter.GetFile.transfer]
      rcases hmk : env.MkdirAll (env.Dir dst) (env.mode g.client 0o755) s1 with ⟨_ | e, s2⟩
      · by_cases hc : g.Copy = true
        · simp [hc]
        · simp [hc]
      · simp
    · intro msg
      simp only [FileGetter.GetFile.transfer]
      rcases hmk : env.MkdirAll (env.Dir dst) (env.mode g.client 0o755) s1 with ⟨_ | e, s2⟩
      · by_cases hc : g.Copy = true
        · simp only [hc]
          rcases hcp : env.copyFile ctx dst path
            (match g.client with | some c => c.DisableSymlinks | none => false) fi.Mode
            (env.umask g.client) s2 with ⟨⟨n, _ | e⟩, s3⟩ <;> simp
        · simp only [hc]
          rcases hln : env.Symlink path dst s2 with ⟨_ | e, s3⟩ <;> simp
      · simp
    · intro e s1a h
      simp at h
    · intro s1a h
      simp only [Prod.mk.injEq, true_and] at h
      subst h
      refine ⟨?_, ?_⟩
      · intro e s2 hmk
        simp [FileGetter.GetFile.transfer, hmk]
      · intro s2 hmk
        refine ⟨?_, ?_⟩
        · intro hc
          simp [FileGetter.GetFile.transfer, hmk, hc]
        · intro hc
          refine ⟨(match g.client with | some c => c.DisableSymlinks | none => false), ?_, ?_⟩
          · cases g.client with
            | none => simp
            | some c => simp
          · simp [FileGetter.GetFile.transfer, hmk, hc]
  · refine ⟨⟨[], rfl⟩, ?_, ?_, ?_⟩
    · intro msg; simp
    · intro e1 s1a h
      simp only [Prod.mk.injEq, Option.some.injEq] at h
      obtain ⟨rfl, rfl⟩ := h
      rfl
    · intro s1a h
      simp at h

theorem GetFile_no_symlink_gate_witness :
    FileGetter.GetFile memEnv linkGetter () "/tmp/b.txt" rawFileURL fs1 =
        ⟨(memEnv.Symlink "/tmp/a%2Fb.txt" "/tmp/b.txt" (memEnv.Remove "/tmp/b.txt" fs1).2).1.map
            .sys,
          (memEnv.Symlink "/tmp/a%2Fb.txt" "/tmp/b.txt" (memEnv.Remove "/tmp/b.txt" fs1).2).2,
          [.Remove "/tmp/b.txt", .MkdirAll "/tmp" 0o755,
            .Symlink "/tmp/a%2Fb.txt" "/tmp/b.txt"]⟩ ∧
      (∃ disableSymlinks : Bool,
        (disableSymlinks = true ↔ ∃ c, copyGetter.client = some c ∧ c.DisableSymlinks = true) ∧
        FileGetter.GetFile memEnv copyGetter () "/tmp/old" rawFileURL fs1 =
          ⟨(memEnv.copyFile () "/tmp/old" "/tmp/a%2Fb.txt" disableSymlinks 0o600 0o022
              (memEnv.Remove "/tmp/old" fs1).2).1.2.map .sys,
            (memEnv.copyFile () "/tmp/old" "/tmp/a%2Fb.txt" disableSymlinks 0o600 0o022
              (memEnv.Remove "/tmp/old" fs1).2).2,
            [.Remove "/tmp/old", .MkdirAll "/tmp" 0o755,
              .copyFile "/tmp/old" "/tmp/a%2Fb.txt" disableSymlinks 0o600 0o022]⟩) ∧
      FileGetter.GetFile memEnv linkGetter () "/tmp/keep" ⟨"/tmp/srcdir/a.txt", ""⟩ fs0 =
        ⟨some (.sys .ENOTEMPTY), fs0, [.Remove "/tmp/keep"]⟩ :=
  ⟨(((GetFile_no_symlink_gate memEnv linkGetter () "/tmp/b.txt" rawFileURL "/tmp/a%2Fb.txt" fs1
      ⟨0o600⟩ ⟨0o644⟩ (Or.inl ⟨by decide, rfl⟩) rfl (by decide) rfl).2.2.2
        (memEnv.Remove "/tmp/b.txt" fs1).2 rfl).2 (memEnv.Remove "/tmp/b.txt" fs1).2 rfl).1 rfl,
    (((GetFile_no_symlink_gate memEnv copyGetter () "/tmp/old" rawFileURL "/tmp/a%2Fb.txt" fs1
      ⟨0o600⟩ ⟨ModeSymlink ||| 0o777⟩ (Or.inl ⟨by decide, rfl⟩) rfl (by decide) rfl).2.2.2
        (memEnv.Remove "/tmp/old" fs1).2 rfl).2 (memEnv.Remove "/tmp/old" fs1).2 rfl).2 rfl,
    (GetFile_no_symlink_gate memEnv linkGetter () "/tmp/keep" ⟨"/tmp/srcdir/a.txt", ""⟩
      "/tmp/srcdir/a.txt" fs0 ⟨0o644⟩ ⟨ModeDir ||| 0o755⟩ (Or.inr ⟨rfl, rfl⟩) rfl (by decide)
      rfl).2.2.1 .ENOTEMPTY fs0 rfl⟩

/-! ## Running a command -/

theorem contains_mid (a : List Char) {msg sub : String} (c : List Char)
    (h : msg.data = a ++ sub.data ++ c) : Contains msg sub :=
  ⟨a, c, h.symm⟩

/-- C9: `getRunCommand` returns an error exactly when the run fails; when the
run ends with a non-zero exit, the error's message is the executable's path,
" exited with ", the description of the exit status, ": " and the whole
captured output, so it contains each of the three. -/
theorem getRunCommand_exit (Run : Cmd → String × Option RunError) (cmd : Cmd) :
    (getRunCommand Run cmd = none ↔ (Run cmd).2 = none) ∧
      ∀ ProcessState, (Run cmd).2 = some (.ExitError ProcessState) →
        getRunCommand Run cmd =
            some (.errorf
              (cmd.Path ++ " exited with " ++ ProcessState ++ ": " ++ (Run cmd).1)) ∧
          Contains (cmd.Path ++ " exited with " ++ ProcessState ++ ": " ++ (Run cmd).1)
            cmd.Path ∧
          Contains (cmd.Path ++ " exited with " ++ ProcessState ++ ": " ++ (Run cmd).1)
            ProcessState ∧
          Contains (cmd.Path ++ " exited with " ++ ProcessState ++ ": " ++ (Run cmd).1)
            (Run cmd).1 := by
  constructor
  · unfold getRunCommand
    rcases hrun : Run cmd with ⟨buf, _ | ⟨ps | text⟩⟩ <;> simp
  · intro ps h
    refine ⟨?_, ?_, ?_, ?_⟩
    · unfold getRunCommand
      rcases hrun : Run cmd with ⟨buf, _ | ⟨ps1 | text⟩⟩ <;> simp [hrun] at h ⊢
      rw [h]
    · exact contains_mid []
        (" exited with ".data ++ ps.data ++ ": ".data ++ (Run cmd).1.data)
        (by simp [String.data_append])
    · exact contains_mid (cmd.Path.data ++ " exited with ".data) (": ".data ++ (Run cmd).1.data)
        (by simp [String.data_append])
    · exact contains_mid (cmd.Path.data ++ " exited with ".data ++ ps.data ++ ": ".data) []
        (by simp [String.data_append])

theorem getRunCommand_exit_witness :
    getRunCommand (fun _ => ("fatal: not a git repository\n", some (.ExitError "exit status 2")))
          ⟨"/usr/bin/git", ["git", "pull"]⟩ =
        some (.errorf ("/usr/bin/git" ++ " exited with " ++ "exit status 2" ++ ": " ++
          "fatal: not a git repository\n")) ∧
      Contains ("/usr/bin/git" ++ " exited with " ++ "exit status 2" ++ ": " ++
        "fatal: not a git repository\n") "/usr/bin/git" ∧
      Contains ("/usr/bin/git" ++ " exited with " ++ "exit status 2" ++ ": " ++
        "fatal: not a git repository\n") "exit status 2" ∧
      Contains ("/usr/bin/git" ++ " exited with " ++ "exit status 2" ++ ": " ++
        "fatal: not a git repository\n") "fatal: not a git repository\n" :=
  (getRunCommand_exit
    (fun _ => ("fatal: not a git repository\n", some (.ExitError "exit status 2")))
    ⟨"/usr/bin/git", ["git", "pull"]⟩).2 "exit status 2" rfl

/-- C10 (as stated) fails: when the run fails to start with the error
"fork/exec /usr/bin/git: permission denied" and nothing was captured, the
returned message is "error running /usr/bin/git: ", which does not contain the
text of that error. -/
theorem getRunCommand_launch_counterexample :
    getRunCommand (fun _ => ("", some (.other "fork/exec /usr/bin/git: permission denied")))
        ⟨"/usr/bin/git", ["git", "pull"]⟩ = some (.errorf "error running /usr/bin/git: ") ∧
      ¬ Contains "error running /usr/bin/git: " "fork/exec /usr/bin/git: permission denied" := by
  constructor
  · rfl
  · unfold Contains
    decide

/-- C10 (amended): when the run fails with an error that is not a non-zero
exit, the returned error's message is "error running ", the executable's path,
": " and the captured output; it contains the path and the captured output, and
it is the same whatever the text of the underlying error. -/
theorem getRunCommand_launch (Run : Cmd → String × Option RunError) (cmd : Cmd) (text : String)
    (h : (Run cmd).2 = some (.other text)) :
    getRunCommand Run cmd =
        some (.errorf ("error running " ++ cmd.Path ++ ": " ++ (Run cmd).1)) ∧
      Contains ("error running " ++ cmd.Path ++ ": " ++ (Run cmd).1) cmd.Path ∧
      Contains ("error running " ++ cmd.Path ++ ": " ++ (Run cmd).1) (Run cmd).1 ∧
      ∀ other, getRunCommand (fun _ => ((Run cmd).1, some (.other other))) cmd =
        getRunCommand Run cmd := by
  have hval : getRunCommand Run cmd =
      some (.errorf ("error running " ++ cmd.Path ++ ": " ++ (Run cmd).1)) := by
    unfold getRunCommand
    rcases hrun : Run cmd with ⟨buf, _ | ⟨ps | t⟩⟩ <;> simp [hrun] at h ⊢
  refine ⟨hval, ?_, ?_, ?_⟩
  · exact contains_mid "error running ".data (": ".data ++ (Run cmd).1.data)
      (by simp [String.data_append])
  · exact contains_mid ("error running ".data ++ cmd.Path.data ++ ": ".data) []
      (by simp [String.data_append])
  · intro other
    rw [hval]
    rfl

theorem getRunCommand_launch_witness :
    getRunCommand (fun _ => ("", some (.other "fork/exec /usr/bin/git: permission denied")))
        ⟨"/usr/bin/git", ["git", "pull"]⟩ =
        some (.errorf ("error running " ++ "/usr/bin/git" ++ ": " ++ "")) ∧
      Contains ("error running " ++ "/usr/bin/git" ++ ": " ++ "") "/usr/bin/git" ∧
      Contains ("error running " ++ "/usr/bin/git" ++ ": " ++ "") "" ∧
      ∀ other, getRunCommand (fun _ => ("", some (.other other)))
          ⟨"/usr/bin/git", ["git", "pull"]⟩ =
        getRunCommand (fun _ => ("", some (.other "fork/exec /usr/bin/git: permission denied")))
          ⟨"/usr/bin/git", ["git", "pull"]⟩ :=
  getRunCommand_launch (fun _ => ("", some (.other "fork/exec /usr/bin/git: permission denied")))
    ⟨"/usr/bin/git", ["git", "pull"]⟩ "fork/exec /usr/bin/git: permission denied" rfl

end Getter
